import Mathlib

/-!
Verification development for the toa-cookie-session middleware
(src/index.js of the repository).

The middleware is embedded shallowly:

* JavaScript JSON values are modelled by the inductive type `JsVal`.
  Numbers are modelled by `Int` (the sessions handled by the middleware
  carry JSON-serialisable content; IEEE-754 specifics of JS numbers are
  outside the shallow embedding).
* `JSON.stringify` is modelled by `stringify` (the exact escaping rules of
  `JSON.stringify` for `"`, `\` and control characters) and `JSON.parse`
  by the fuel-indexed recursive-descent parser `parseVal` / `parse`
  (restricted to whitespace-free JSON texts, which covers every text
  `JSON.stringify` produces).
* `Buffer(s).toString('base64')` / `Buffer(s,'base64')` are modelled by
  `b64encode` / `b64decode` over bytes (`Fin 256`), and the UTF-8
  conversion inside `Buffer` by `utf8Encode` / `utf8Decode`.  The Node
  decoders are lenient on malformed input where the model is strict; both
  report "no valid session" through the surrounding try/catch, which is
  all the middleware observes.
* The per-request mutable closure variable `session` (false | null |
  Session) is modelled by the state type `SessState`, the `Session`
  constructor by `mkSession`, the property getter/setter by `getSession`
  / `setSession`, and the finalisation hook by `onPreEnd`.
-/

/-- A JavaScript JSON value.  Object fields are kept as an ordered list of
own enumerable key/value pairs, strings as lists of characters. -/
inductive JsVal : Type where
  | null : JsVal
  | bool (b : Bool) : JsVal
  | num (n : Int) : JsVal
  | str (s : List Char) : JsVal
  | arr (elems : List JsVal) : JsVal
  | obj (fields : List (List Char × JsVal)) : JsVal

/-- JavaScript truthiness of a JSON value (`!!v`): `null`, `false`, `0`
and the empty string are falsy, every object and array is truthy. -/
def jsTruthy : JsVal → Bool
  | .null => false
  | .bool b => b
  | .num n => n != 0
  | .str s => !s.isEmpty
  | .arr _ => true
  | .obj _ => true

/-- `typeof v === 'object'` for a JSON value (`null` is also of object
type in JavaScript, but the session setter tests `val == null` first). -/
def jsTypeofObject : JsVal → Bool
  | .null => true
  | .arr _ => true
  | .obj _ => true
  | _ => false

/-- The decimal digit character for `d < 10`. -/
def digitChar (d : Nat) : Char := Char.ofNat (48 + d)

/-- Decimal digits of `n`, most significant first (fuel-indexed so that it
computes by reduction; `natToChars` supplies enough fuel). -/
def natToCharsAux : Nat → Nat → List Char
  | 0, _ => []
  | fuel + 1, n =>
    if n < 10 then [digitChar n]
    else natToCharsAux fuel (n / 10) ++ [digitChar (n % 10)]

/-- Decimal representation of a natural number, as `JSON.stringify`
prints it (no sign, no leading zeros). -/
def natToChars (n : Nat) : List Char := natToCharsAux (n + 1) n

/-- Decimal representation of an integer, as `JSON.stringify` prints it
(`-` sign for negative values). -/
def intToChars : Int → List Char
  | .ofNat n => natToChars n
  | .negSucc n => '-' :: natToChars (n + 1)

/-- The hexadecimal digit character `JSON.stringify` uses in `\u00XX`
escapes (lower case). -/
def hexChar (d : Nat) : Char :=
  if d < 10 then Char.ofNat (48 + d) else Char.ofNat (87 + d)

/-- The escape sequence `JSON.stringify` produces for one character of a
string: `"` and `\` get a backslash escape, the control characters
U+0008/9/A/C/D get their short forms, other control characters a
`\u00XX` escape, and every other character stands for itself. -/
def escapeChar (c : Char) : List Char :=
  if c = '"' then ['\\', '"']
  else if c = '\\' then ['\\', '\\']
  else if c.toNat = 8 then ['\\', 'b']
  else if c.toNat = 9 then ['\\', 't']
  else if c.toNat = 10 then ['\\', 'n']
  else if c.toNat = 12 then ['\\', 'f']
  else if c.toNat = 13 then ['\\', 'r']
  else if c.toNat < 32 then
    ['\\', 'u', '0', '0', hexChar (c.toNat / 16), hexChar (c.toNat % 16)]
  else [c]

/-- Body of a JSON string literal: every character escaped. -/
def escapeString (s : List Char) : List Char := s.flatMap escapeChar

/-- A complete JSON string literal, quotes included. -/
def quoteString (s : List Char) : List Char :=
  '"' :: escapeString s ++ ['"']

/-- The keyword `null`. -/
def nullChars : List Char := ['n', 'u', 'l', 'l']

/-- The keyword `true`. -/
def trueChars : List Char := ['t', 'r', 'u', 'e']

/-- The keyword `false`. -/
def falseChars : List Char := ['f', 'a', 'l', 's', 'e']

mutual

/-- `JSON.stringify` on the modelled values (whitespace-free output, the
format Node produces with no indent argument). -/
def stringify : JsVal → List Char
  | .null => nullChars
  | .bool b => if b then trueChars else falseChars
  | .num n => intToChars n
  | .str s => quoteString s
  | .arr elems => '[' :: stringifyElems elems ++ [']']
  | .obj fields => '{' :: stringifyFields fields ++ ['}']
termination_by structural v => v

/-- Comma-separated array elements. -/
def stringifyElems : List JsVal → List Char
  | [] => []
  | [v] => stringify v
  | v :: rest => stringify v ++ ',' :: stringifyElems rest
termination_by structural l => l

/-- Comma-separated `"key":value` object members. -/
def stringifyFields : List (List Char × JsVal) → List Char
  | [] => []
  | [(k, v)] => quoteString k ++ ':' :: stringify v
  | (k, v) :: rest => quoteString k ++ ':' :: stringify v ++ ',' :: stringifyFields rest
termination_by structural l => l

end

/-! ### Base64 (`Buffer#toString('base64')` / `Buffer(s, 'base64')`) -/

/-- The standard base64 alphabet. -/
def b64Alphabet : List Char :=
  "ABCDEFGHIJKLMNOPQRSTUVWXYZabcdefghijklmnopqrstuvwxyz0123456789+/".data

/-- The base64 digit character for a six-bit group. -/
def b64Char (s : Fin 64) : Char := b64Alphabet.getD s.val ' '

/-- The six-bit value of a base64 digit character, `none` for characters
outside the alphabet. -/
def b64CharVal (c : Char) : Option (Fin 64) :=
  let n := c.toNat
  if h : 65 ≤ n ∧ n ≤ 90 then some ⟨n - 65, by omega⟩
  else if h : 97 ≤ n ∧ n ≤ 122 then some ⟨n - 97 + 26, by omega⟩
  else if h : 48 ≤ n ∧ n ≤ 57 then some ⟨n - 48 + 52, by omega⟩
  else if n = 43 then some ⟨62, by omega⟩
  else if n = 47 then some ⟨63, by omega⟩
  else none

/-- First output character of a base64 group (top six bits of byte 0). -/
def b64e0 (a : Fin 256) : Char :=
  b64Char ⟨a.val / 4, by have := a.isLt; omega⟩

/-- Second output character (bottom two bits of byte 0, top four of byte 1). -/
def b64e1 (a b : Fin 256) : Char :=
  b64Char ⟨a.val % 4 * 16 + b.val / 16, by have := b.isLt; omega⟩

/-- Third output character (bottom four bits of byte 1, top two of byte 2). -/
def b64e2 (b c : Fin 256) : Char :=
  b64Char ⟨b.val % 16 * 4 + c.val / 64, by have := c.isLt; omega⟩

/-- Fourth output character (bottom six bits of byte 2). -/
def b64e3 (c : Fin 256) : Char :=
  b64Char ⟨c.val % 64, by omega⟩

/-- Base64 encoding of a byte sequence, with `=` padding, as Node's
`Buffer#toString('base64')` produces it. -/
def b64encode : List (Fin 256) → List Char
  | [] => []
  | [a] => [b64e0 a, b64e1 a 0, '=', '=']
  | [a, b] => [b64e0 a, b64e1 a b, b64e2 b 0, '=']
  | a :: b :: c :: rest => b64e0 a :: b64e1 a b :: b64e2 b c :: b64e3 c :: b64encode rest

/-- First byte reconstructed from six-bit groups 0 and 1. -/
def b64d0 (s0 s1 : Fin 64) : Fin 256 :=
  ⟨s0.val * 4 + s1.val / 16, by have := s0.isLt; have := s1.isLt; omega⟩

/-- Second byte reconstructed from six-bit groups 1 and 2. -/
def b64d1 (s1 s2 : Fin 64) : Fin 256 :=
  ⟨s1.val % 16 * 16 + s2.val / 4, by have := s2.isLt; omega⟩

/-- Third byte reconstructed from six-bit groups 2 and 3. -/
def b64d2 (s2 s3 : Fin 64) : Fin 256 :=
  ⟨s2.val % 4 * 64 + s3.val, by have := s3.isLt; omega⟩

/-- Base64 decoding to a byte sequence.  `Buffer(s, 'base64')` itself is
lenient (it skips characters it cannot use); the model is strict and
reports malformed input as `none`, which the middleware's surrounding
try/catch turns into the same "no valid session" outcome. -/
def b64decode : List Char → Option (List (Fin 256))
  | [] => some []
  | c0 :: c1 :: c2 :: c3 :: rest =>
    match b64CharVal c0, b64CharVal c1 with
    | some s0, some s1 =>
      if c2 = '=' then
        if c3 = '=' ∧ rest = [] then some [b64d0 s0 s1] else none
      else
        match b64CharVal c2 with
        | some s2 =>
          if c3 = '=' then
            if rest = [] then some [b64d0 s0 s1, b64d1 s1 s2] else none
          else
            match b64CharVal c3 with
            | some s3 =>
              (b64decode rest).map fun bs => b64d0 s0 s1 :: b64d1 s1 s2 :: b64d2 s2 s3 :: bs
            | none => none
        | none => none
    | _, _ => none
  | _ => none

/-! ### UTF-8 (the text/byte conversions inside `Buffer`) -/

/-- UTF-8 encoding of one character.  Lean characters are Unicode scalar
values, which is exactly the set `Buffer` encodes losslessly. -/
def utf8EncodeChar (c : Char) : List (Fin 256) :=
  if h : c.toNat < 128 then [⟨c.toNat, by omega⟩]
  else if h2 : c.toNat < 2048 then
    [⟨192 + c.toNat / 64, by omega⟩, ⟨128 + c.toNat % 64, by omega⟩]
  else if h3 : c.toNat < 65536 then
    [⟨224 + c.toNat / 4096, by omega⟩, ⟨128 + c.toNat / 64 % 64, by omega⟩,
      ⟨128 + c.toNat % 64, by omega⟩]
  else
    [⟨240 + c.toNat / 262144 % 16, by omega⟩, ⟨128 + c.toNat / 4096 % 64, by omega⟩,
      ⟨128 + c.toNat / 64 % 64, by omega⟩, ⟨128 + c.toNat % 64, by omega⟩]

/-- UTF-8 encoding of a string. -/
def utf8Encode (s : List Char) : List (Fin 256) := s.flatMap utf8EncodeChar

/-- Decode one UTF-8 continuation byte (`10xxxxxx`). -/
def utf8Cont (b : Fin 256) : Option Nat :=
  if 128 ≤ b.val ∧ b.val < 192 then some (b.val - 128) else none

/-- Finish a two-byte sequence led by byte value `n0`. -/
def utf8Step2 (n0 : Nat) : List (Fin 256) → Option (Nat × List (Fin 256))
  | b1 :: rest =>
    (utf8Cont b1).bind fun v1 => some ((n0 - 192) * 64 + v1, rest)
  | [] => none

/-- Finish a three-byte sequence led by byte value `n0`, rejecting
overlong forms and surrogates. -/
def utf8Step3 (n0 : Nat) : List (Fin 256) → Option (Nat × List (Fin 256))
  | b1 :: b2 :: rest =>
    (utf8Cont b1).bind fun v1 =>
      (utf8Cont b2).bind fun v2 =>
        if (n0 - 224) * 4096 + v1 * 64 + v2 < 2048 ∨
            (55296 ≤ (n0 - 224) * 4096 + v1 * 64 + v2 ∧
              (n0 - 224) * 4096 + v1 * 64 + v2 < 57344) then none
        else some ((n0 - 224) * 4096 + v1 * 64 + v2, rest)
  | _ => none

/-- Finish a four-byte sequence led by byte value `n0`, rejecting
overlong forms and values beyond U+10FFFF. -/
def utf8Step4 (n0 : Nat) : List (Fin 256) → Option (Nat × List (Fin 256))
  | b1 :: b2 :: b3 :: rest =>
    (utf8Cont b1).bind fun v1 =>
      (utf8Cont b2).bind fun v2 =>
        (utf8Cont b3).bind fun v3 =>
          if (n0 - 240) * 262144 + v1 * 4096 + v2 * 64 + v3 < 65536 ∨
              1114112 ≤ (n0 - 240) * 262144 + v1 * 4096 + v2 * 64 + v3 then none
          else some ((n0 - 240) * 262144 + v1 * 4096 + v2 * 64 + v3, rest)
  | _ => none

/-- Decode one UTF-8 scalar value from the front of a byte sequence
(strict: malformed leads, overlong forms and surrogates are rejected,
where `Buffer#toString('utf8')` would substitute U+FFFD; the middleware
only ever sees either well-formed output of `utf8Encode` or garbage that
fails JSON parsing anyway). -/
def utf8Step : List (Fin 256) → Option (Nat × List (Fin 256))
  | [] => none
  | b0 :: rest =>
    if b0.val < 128 then some (b0.val, rest)
    else if b0.val < 194 then none
    else if b0.val < 224 then utf8Step2 b0.val rest
    else if b0.val < 240 then utf8Step3 b0.val rest
    else if b0.val < 245 then utf8Step4 b0.val rest
    else none

/-- UTF-8 decoding loop; the fuel only forces termination (`utf8Decode`
supplies enough for any input, since every step consumes a byte). -/
def utf8DecodeAux : Nat → List (Fin 256) → Option (List Char)
  | 0, _ => none
  | fuel + 1, bs =>
    if bs.isEmpty then some []
    else
      match utf8Step bs with
      | some (n, rest) => (utf8DecodeAux fuel rest).map fun cs => Char.ofNat n :: cs
      | none => none

/-- UTF-8 decoding of a byte sequence. -/
def utf8Decode (bs : List (Fin 256)) : Option (List Char) :=
  utf8DecodeAux (bs.length + 1) bs

/-! ### `JSON.parse`, as a fuel-indexed recursive-descent parser

The model accepts the whitespace-free JSON fragment with integer
numbers, which includes every text `JSON.stringify` produces for the
modelled values; other inputs (whitespace, floats, surrogate pairs) are
rejected where `JSON.parse` would accept them, and both sides agree on
every input the middleware itself generates. -/

/-- Consume an expected literal prefix. -/
def dropPrefixChars : List Char → List Char → Option (List Char)
  | [], s => some s
  | p :: ps, c :: s => if c = p then dropPrefixChars ps s else none
  | _ :: _, [] => none

/-- Value of one hexadecimal digit character. -/
def hexVal (c : Char) : Option Nat :=
  let n := c.toNat
  if 48 ≤ n ∧ n ≤ 57 then some (n - 48)
  else if 97 ≤ n ∧ n ≤ 102 then some (n - 97 + 10)
  else if 65 ≤ n ∧ n ≤ 70 then some (n - 65 + 10)
  else none

/-- The character named by a single-character JSON escape (`\\x`). -/
def escVal (e : Char) : Option Char :=
  if e = '"' then some '"'
  else if e = '\\' then some '\\'
  else if e = '/' then some '/'
  else if e = 'b' then some (Char.ofNat 8)
  else if e = 'f' then some (Char.ofNat 12)
  else if e = 'n' then some (Char.ofNat 10)
  else if e = 'r' then some (Char.ofNat 13)
  else if e = 't' then some (Char.ofNat 9)
  else none

/-- Read the four hex digits of a `\\uXXXX` escape (rejecting surrogate
halves, which have no counterpart among Unicode scalar values). -/
def parseHex4 : List Char → Option (Char × List Char)
  | h1 :: h2 :: h3 :: h4 :: rest =>
    match hexVal h1, hexVal h2, hexVal h3, hexVal h4 with
    | some a, some b, some c2, some d =>
      if 55296 ≤ a * 4096 + b * 256 + c2 * 16 + d ∧
          a * 4096 + b * 256 + c2 * 16 + d < 57344 then none
      else some (Char.ofNat (a * 4096 + b * 256 + c2 * 16 + d), rest)
    | _, _, _, _ => none
  | _ => none

/-- Body of a JSON string literal (the opening quote already consumed):
decoded characters plus the input after the closing quote.  The fuel
only forces termination; `parseStringBody` supplies enough. -/
def parseStringBodyAux : Nat → List Char → Option (List Char × List Char)
  | 0, _ => none
  | _ + 1, [] => none
  | fuel + 1, c :: rest =>
    if c = '"' then some ([], rest)
    else if c = '\\' then
      match rest with
      | [] => none
      | e :: rest1 =>
        if e = 'u' then
          match parseHex4 rest1 with
          | some (ch, rest2) =>
            (parseStringBodyAux fuel rest2).map fun r => (ch :: r.1, r.2)
          | none => none
        else
          match escVal e with
          | some ch => (parseStringBodyAux fuel rest1).map fun r => (ch :: r.1, r.2)
          | none => none
    else if c.toNat < 32 then none
    else (parseStringBodyAux fuel rest).map fun r => (c :: r.1, r.2)

/-- Parse the body of a JSON string literal. -/
def parseStringBody (s : List Char) : Option (List Char × List Char) :=
  parseStringBodyAux (s.length + 1) s

/-- Is `c` a decimal digit? -/
def isDigitChar (c : Char) : Bool := 48 ≤ c.toNat && c.toNat ≤ 57

/-- Accumulate a run of decimal digits. -/
def takeDigits : Nat → List Char → Nat × List Char
  | acc, [] => (acc, [])
  | acc, c :: rest =>
    if isDigitChar c then takeDigits (acc * 10 + (c.toNat - 48)) rest
    else (acc, c :: rest)

/-- Parse a nonempty run of decimal digits. -/
def parseNat : List Char → Option (Nat × List Char)
  | c :: rest => if isDigitChar c then some (takeDigits (c.toNat - 48) rest) else none
  | [] => none

mutual

/-- Parse one JSON value.  The fuel argument only forces termination;
`parse` supplies enough fuel for any input it can accept. -/
def parseVal : Nat → List Char → Option (JsVal × List Char)
  | 0, _ => none
  | _ + 1, [] => none
  | fuel + 1, c :: s =>
    if c = 'n' then (dropPrefixChars ['u', 'l', 'l'] s).map fun r => (JsVal.null, r)
    else if c = 't' then (dropPrefixChars ['r', 'u', 'e'] s).map fun r => (JsVal.bool true, r)
    else if c = 'f' then (dropPrefixChars ['a', 'l', 's', 'e'] s).map fun r => (JsVal.bool false, r)
    else if c = '"' then (parseStringBody s).map fun r => (JsVal.str r.1, r.2)
    else if c = '-' then (parseNat s).map fun r => (JsVal.num (-(r.1 : Int)), r.2)
    else if isDigitChar c then (parseNat (c :: s)).map fun r => (JsVal.num (r.1 : Int), r.2)
    else if c = '[' then
      match s with
      | [] => none
      | c1 :: s1 =>
        if c1 = ']' then some (JsVal.arr [], s1)
        else
          match parseVal fuel (c1 :: s1) with
          | some (v, s2) => parseArrRest fuel [v] s2
          | none => none
    else if c = '{' then
      match s with
      | [] => none
      | c1 :: s1 =>
        if c1 = '}' then some (JsVal.obj [], s1)
        else
          match parseMember fuel (c1 :: s1) with
          | some (kv, s2) => parseObjRest fuel [kv] s2
          | none => none
    else none

/-- Parse the continuation of a nonempty array: `,v`* followed by `]`. -/
def parseArrRest : Nat → List JsVal → List Char → Option (JsVal × List Char)
  | 0, _, _ => none
  | _ + 1, acc, ']' :: s => some (JsVal.arr acc, s)
  | fuel + 1, acc, ',' :: s =>
    match parseVal fuel s with
    | some (v, s1) => parseArrRest fuel (acc ++ [v]) s1
    | none => none
  | _ + 1, _, _ => none

/-- Parse one `"key":value` object member. -/
def parseMember : Nat → List Char → Option ((List Char × JsVal) × List Char)
  | 0, _ => none
  | fuel + 1, '"' :: s =>
    match parseStringBody s with
    | some (k, s1) =>
      match s1 with
      | ':' :: s2 => (parseVal fuel s2).map fun r => ((k, r.1), r.2)
      | _ => none
    | none => none
  | _ + 1, _ => none

/-- Parse the continuation of a nonempty object: `,"k":v`* followed by `}`. -/
def parseObjRest : Nat → List (List Char × JsVal) → List Char → Option (JsVal × List Char)
  | 0, _, _ => none
  | _ + 1, acc, '}' :: s => some (JsVal.obj acc, s)
  | fuel + 1, acc, ',' :: s =>
    match parseMember fuel s with
    | some (kv, s1) => parseObjRest fuel (acc ++ [kv]) s1
    | none => none
  | _ + 1, _, _ => none

end

/-- `JSON.parse`: parse a complete JSON text, rejecting trailing input.
The fuel `2 * s.length + 2` dominates the parser's fuel consumption on
any input it accepts. -/
def parse (s : List Char) : Option JsVal :=
  match parseVal (2 * s.length + 2) s with
  | some (v, []) => some v
  | _ => none

/-! ### The middleware (src/index.js) -/

/-- `decode` of src/index.js: base64-decode the cookie text to bytes,
read them as UTF-8, then `JSON.parse`; the try/catch swallows any
failure and returns `undefined`, here `none`. -/
def decode (string : List Char) : Option JsVal :=
  (b64decode string).bind fun bytes =>
    (utf8Decode bytes).bind fun text => parse text

/-- `encode` of src/index.js: `JSON.stringify`, UTF-8 bytes, base64. -/
def encode (body : JsVal) : List Char :=
  b64encode (utf8Encode (stringify body))

/-- A constructed `Session` object: the non-enumerable `isNew` attribute
plus the own enumerable properties copied in the constructor. -/
structure SessionObj where
  isNew : Bool
  fields : List (List Char × JsVal)

/-- The own enumerable key/value pairs `Object.keys(obj)` iterates over
in the `Session` constructor: an object's fields, an array's indexed
elements, a string's indexed characters, nothing for other primitives. -/
def ownFields : JsVal → List (List Char × JsVal)
  | .obj kvs => kvs
  | .arr xs => xs.enum.map fun p => (natToChars p.1, p.2)
  | .str s => s.enum.map fun p => (natToChars p.1, JsVal.str [p.2])
  | _ => []

/-- `new Session(obj)`: `isNew` is `!obj` (JavaScript falsiness of the
argument, with `none` standing for `undefined`), and the own enumerable
keys of `obj` are copied onto the session only when `obj` is truthy. -/
def mkSession : Option JsVal → SessionObj
  | none => ⟨true, []⟩
  | some v => if jsTruthy v then ⟨false, ownFields v⟩ else ⟨true, []⟩

/-- The closure variable `session` of the middleware: `false` until the
property is first touched, `null` after `session = null`, otherwise a
`Session` object. -/
inductive SessState : Type where
  | untouched : SessState
  | destroyed : SessState
  | active (s : SessionObj) : SessState

/-- First read of the session property: `session = this.cookies.get(...)`
followed by `session = new Session(session && decode(session))`.  The
argument is the raw cookie value, `none` when no (validly signed) cookie
arrived. -/
def loadSession : Option (List Char) → SessionObj
  | none => mkSession none
  | some s => if s.isEmpty then mkSession (some (.str [])) else mkSession (decode s)

/-- The `session` property getter: loads lazily on first access, then
returns the cached value; after `session = null` it returns `null`
(modelled as `none`). -/
def getSession (st : SessState) (cookie : Option (List Char)) :
    SessState × Option SessionObj :=
  match st with
  | .untouched => (SessState.active (loadSession cookie), some (loadSession cookie))
  | .destroyed => (SessState.destroyed, none)
  | .active s => (SessState.active s, some s)

/-- The `session` property setter.  `none` stands for `undefined`
(`val == null` also catches it); any non-null value of object type
becomes a fresh `Session`; anything else throws. -/
def setSession : Option JsVal → Except String SessState
  | none => .ok .destroyed
  | some .null => .ok .destroyed
  | some v =>
    if jsTypeofObject v then .ok (.active (mkSession (some v)))
    else .error "session can only be set as null or an object."

/-- The serialized cookie value for an active session:
`encode(session)` serializes the session's own enumerable fields
(`isNew` is non-enumerable and absent). -/
def encodeSession (s : SessionObj) : List Char := encode (.obj s.fields)

/-- The value `onPreEnd` passes to `this.cookies.set`: `none` when the
session was never touched (no `cookies.set` call at all), the empty
string after `session = null`, the encoded session otherwise. -/
def onPreEnd : SessState → Option (List Char)
  | .untouched => none
  | .destroyed => some []
  | .active s => some (encodeSession s)

/-- `onPreEnd`'s control flow around its completion callback, with the
outcome of the `this.cookies.set` call made explicit (the cookies
utility throws, for example, for `secure: true` on an insecure
connection).  `Except.ok n` means the hook returned normally having
invoked `cb` exactly `n` times; `Except.error e` means an exception
propagated out of the hook. -/
def runPreEnd (st : SessState) (setResult : Except String Unit) : Except String Nat :=
  match st with
  | .untouched => .ok 1
  | _ =>
    match setResult with
    | .ok _ => .ok 1
    | .error e => .error e

/-- One handler interaction with the session property. -/
inductive SessAction : Type where
  | read : SessAction
  | write (v : Option JsVal) : SessAction

/-- Effect of one interaction on the closure state. -/
def runAction (cookie : Option (List Char)) (st : SessState) :
    SessAction → Except String SessState
  | .read => .ok (getSession st cookie).1
  | .write v => setSession v

/-- A handler body as a sequence of session interactions, aborted by the
first thrown error (which leaves the state as it was). -/
def runActions (cookie : Option (List Char)) :
    SessState → List SessAction → SessState × Option String
  | st, [] => (st, none)
  | st, a :: rest =>
    match runAction cookie st a with
    | .ok st1 => runActions cookie st1 rest
    | .error e => (st, some e)

/-! ### `sessionOptions` (`Object.create(options)` per request) -/

/-- Own-property lookup on an association list (later assignments are
consed to the front, so the first hit is the current value). -/
def lookupProp : List (List Char × JsVal) → List Char → Option JsVal
  | [], _ => none
  | kv :: rest, k => if kv.1 = k then some kv.2 else lookupProp rest k

/-- A per-request options object: own properties over a prototype. -/
structure JsOptions where
  protoProps : List (List Char × JsVal)
  ownProps : List (List Char × JsVal)

/-- `this.sessionOptions = Object.create(options)`: a fresh object with
no own properties whose prototype is the base configuration. -/
def mkSessionOptions (base : List (List Char × JsVal)) : JsOptions := ⟨base, []⟩

/-- Property assignment on the options object: creates or updates an own
property, never touching the prototype. -/
def setOption (o : JsOptions) (k : List Char) (v : JsVal) : JsOptions :=
  ⟨o.protoProps, (k, v) :: o.ownProps⟩

/-- Property read: own property first, then the prototype. -/
def getOption (o : JsOptions) (k : List Char) : Option JsVal :=
  match lookupProp o.ownProps k with
  | some v => some v
  | none => lookupProp o.protoProps k

/-- A handler's sequence of `sessionOptions.x = v` assignments. -/
def setOptions (o : JsOptions) : List (List Char × JsVal) → JsOptions
  | [] => o
  | kv :: rest => setOptions (setOption o kv.1 kv.2) rest

/-! ### Auxiliary measures for the parser roundtrip proof -/

mutual

/-- Fuel needed by `parseVal` to parse `stringify v`. -/
def jsize : JsVal → Nat
  | .null | .bool _ | .num _ | .str _ => 1
  | .arr [] => 1
  | .arr (v :: vs) => 1 + jsize v + jsizeElems vs
  | .obj [] => 1
  | .obj (kv :: kvs) => 2 + jsize kv.2 + jsizeFields kvs
termination_by structural v => v

/-- Fuel needed by `parseArrRest` for the remaining elements. -/
def jsizeElems : List JsVal → Nat
  | [] => 1
  | v :: vs => 1 + jsize v + jsizeElems vs
termination_by structural l => l

/-- Fuel needed by `parseObjRest` for the remaining members. -/
def jsizeFields : List (List Char × JsVal) → Nat
  | [] => 1
  | kv :: kvs => 2 + jsize kv.2 + jsizeFields kvs
termination_by structural l => l

end

/-- The text of the second and later array elements: `,v` repeated. -/
def elemsTail (vs : List JsVal) : List Char :=
  vs.flatMap fun v => ',' :: stringify v

/-- The text of the second and later object members: `,"k":v` repeated. -/
def fieldsTail (kvs : List (List Char × JsVal)) : List Char :=
  kvs.flatMap fun kv => ',' :: (quoteString kv.1 ++ ':' :: stringify kv.2)

/-- Does the remaining input fail to start with a digit (so that a number
just parsed cannot absorb it)? -/
def numDelim : List Char → Bool
  | [] => true
  | c :: _ => !isDigitChar c

/-- Side condition of the roundtrip lemma: only a printed number
constrains what may follow it. -/
def delimOk : JsVal → List Char → Prop
  | .num _, rest => numDelim rest = true
  | _, _ => True


/-! ## Helper lemmas about the session state machine -/

/-- A successful assignment never returns the state to `untouched`. -/
theorem setSession_ok_ne_untouched {v : Option JsVal} {st : SessState}
    (h : setSession v = Except.ok st) : st ≠ SessState.untouched := by
  intro he
  subst he
  cases v with
  | none => simp [setSession] at h
  | some w => cases w <;> simp [setSession, jsTypeofObject] at h

/-- A successful interaction never returns the state to `untouched`. -/
theorem runAction_ok_ne_untouched {cookie : Option (List Char)} {st st' : SessState}
    {a : SessAction} (h : runAction cookie st a = Except.ok st') :
    st' ≠ SessState.untouched := by
  cases a with
  | read =>
    simp only [runAction, Except.ok.injEq] at h
    subst h
    cases st <;> simp [getSession]
  | write v => exact setSession_ok_ne_untouched h

/-- Once touched, the session state never becomes `untouched` again. -/
theorem runActions_ok_ne_untouched {cookie : Option (List Char)} :
    ∀ {acts : List SessAction} {st st' : SessState},
      runActions cookie st acts = (st', none) →
      st ≠ SessState.untouched → st' ≠ SessState.untouched
  | [], st, st', h, hne => by
    simp only [runActions, Prod.mk.injEq] at h
    exact h.1 ▸ hne
  | a :: rest, st, st', h, hne => by
    unfold runActions at h
    cases hra : runAction cookie st a with
    | ok st1 =>
      rw [hra] at h
      exact runActions_ok_ne_untouched h (runAction_ok_ne_untouched hra)
    | error e =>
      rw [hra] at h
      simp at h

/-! ## Claims -/

/-- Claim C1: for every request, `onPreEnd` makes a `cookies.set` call if
and only if the session property was read or written at least once
(state no longer `false`); the value written is the empty string when
the session was set to `null`, and `encode(session)` otherwise. -/
theorem claim_c1 (cookie : Option (List Char)) (acts : List SessAction) (st' : SessState)
    (h : runActions cookie SessState.untouched acts = (st', none)) :
    ((onPreEnd st').isSome ↔ acts ≠ []) ∧
    (st' = SessState.destroyed → onPreEnd st' = some []) ∧
    (∀ s, st' = SessState.active s → onPreEnd st' = some (encodeSession s)) := by
  refine ⟨?_, fun hd => hd ▸ rfl, fun s hs => hs ▸ rfl⟩
  cases acts with
  | nil =>
    simp only [runActions, Prod.mk.injEq] at h
    rw [← h.1]
    simp [onPreEnd]
  | cons a rest =>
    have hne : st' ≠ SessState.untouched := by
      unfold runActions at h
      cases hra : runAction cookie SessState.untouched a with
      | ok st1 =>
        rw [hra] at h
        exact runActions_ok_ne_untouched h (runAction_ok_ne_untouched hra)
      | error e =>
        rw [hra] at h
        simp at h
    constructor
    · intro _
      simp
    · intro _
      cases st' with
      | untouched => exact absurd rfl hne
      | destroyed => rfl
      | active s => rfl

/-- Witness for C1 at a concrete run: a single read of the session with no
incoming cookie. -/
theorem claim_c1_witness :
    ((onPreEnd (SessState.active (loadSession none))).isSome ↔
      ([SessAction.read] : List SessAction) ≠ []) ∧
    (SessState.active (loadSession none) = SessState.destroyed →
      onPreEnd (SessState.active (loadSession none)) = some []) ∧
    (∀ s, SessState.active (loadSession none) = SessState.active s →
      onPreEnd (SessState.active (loadSession none)) = some (encodeSession s)) :=
  claim_c1 none [SessAction.read] (SessState.active (loadSession none)) rfl

/-- Claim C2: a request that only reads the session (never mutating it
from its decoded content) still ends with the session re-serialized and
re-set: after a single read the state is `active (loadSession cookie)`
for every incoming cookie, and `onPreEnd` then emits
`encode(session)` — there is no value-equality check that could suppress
the write. -/
theorem claim_c2 (cookie : Option (List Char)) :
    runActions cookie SessState.untouched [SessAction.read] =
      (SessState.active (loadSession cookie), none) ∧
    onPreEnd (SessState.active (loadSession cookie)) =
      some (encodeSession (loadSession cookie)) :=
  ⟨rfl, rfl⟩

/-- Claim C3, behavior of the code at the claim's input: assigning `{}`
leaves the state `active` with no fields, and `onPreEnd` DOES make a
`cookies.set` call with value `base64("{}") = "e30="` — the repository's
own test (`should not Set-Cookie when set {}` in the test suite) asserts
that no `Set-Cookie` header is produced, so the code contradicts its
tests here.  Assigning `{name: "x"}` produces a set call as the claim
says. -/
theorem claim_c3_code :
    runActions none SessState.untouched [SessAction.write (some (JsVal.obj []))] =
      (SessState.active ⟨false, []⟩, none) ∧
    onPreEnd (SessState.active ⟨false, []⟩) = some ['e', '3', '0', '='] ∧
    runActions none SessState.untouched
        [SessAction.write (some (JsVal.obj [(['n', 'a', 'm', 'e'], JsVal.str ['x'])]))] =
      (SessState.active ⟨false, [(['n', 'a', 'm', 'e'], JsVal.str ['x'])]⟩, none) ∧
    (onPreEnd (SessState.active ⟨false, []⟩)).isSome = true :=
  ⟨rfl, rfl, rfl, rfl⟩

/-- Claim C5: the setter accepts `null`/`undefined` (destroying the
session) and object-typed values (fresh `Session`); any other value
throws synchronously, the failed assignment leaves the state unchanged,
and an untouched state emits no cookie. -/
theorem claim_c5 (v : JsVal) :
    setSession none = Except.ok SessState.destroyed ∧
    setSession (some JsVal.null) = Except.ok SessState.destroyed ∧
    (jsTypeofObject v = true → v ≠ JsVal.null →
      setSession (some v) = Except.ok (SessState.active (mkSession (some v)))) ∧
    (jsTypeofObject v = false →
      setSession (some v) = Except.error "session can only be set as null or an object." ∧
      (∀ cookie st, runActions cookie st [SessAction.write (some v)] =
        (st, some "session can only be set as null or an object.")) ∧
      onPreEnd SessState.untouched = none) := by
  refine ⟨rfl, rfl, ?_, ?_⟩
  · intro ht hne
    cases v with
    | null => exact absurd rfl hne
    | arr a => rfl
    | obj o => rfl
    | bool b => simp [jsTypeofObject] at ht
    | num n => simp [jsTypeofObject] at ht
    | str s => simp [jsTypeofObject] at ht
  · intro hf
    cases v with
    | null => simp [jsTypeofObject] at hf
    | arr a => simp [jsTypeofObject] at hf
    | obj o => simp [jsTypeofObject] at hf
    | bool b => exact ⟨rfl, fun _ _ => rfl, rfl⟩
    | num n => exact ⟨rfl, fun _ _ => rfl, rfl⟩
    | str s => exact ⟨rfl, fun _ _ => rfl, rfl⟩

/-- Witness for C5: assigning `{}` succeeds; assigning the string
`"invalid"` throws, leaves the state untouched and emits no cookie. -/
theorem claim_c5_witness :
    setSession (some (JsVal.obj [])) =
      Except.ok (SessState.active (mkSession (some (JsVal.obj [])))) ∧
    setSession (some (JsVal.str ['i', 'n', 'v', 'a', 'l', 'i', 'd'])) =
      Except.error "session can only be set as null or an object." ∧
    runActions none SessState.untouched
        [SessAction.write (some (JsVal.str ['i', 'n', 'v', 'a', 'l', 'i', 'd']))] =
      (SessState.untouched, some "session can only be set as null or an object.") ∧
    onPreEnd SessState.untouched = none := by
  refine ⟨(claim_c5 (JsVal.obj [])).2.2.1 rfl (by simp), ?_, ?_, ?_⟩
  · exact ((claim_c5 (JsVal.str ['i', 'n', 'v', 'a', 'l', 'i', 'd'])).2.2.2 rfl).1
  · exact ((claim_c5 (JsVal.str ['i', 'n', 'v', 'a', 'l', 'i', 'd'])).2.2.2 rfl).2.1 none SessState.untouched
  · exact ((claim_c5 (JsVal.str ['i', 'n', 'v', 'a', 'l', 'i', 'd'])).2.2.2 rfl).2.2

/-- Claim C6: `decode` is a total function into `Option` (the try/catch
swallows every failure), and a cookie it cannot decode yields a new
empty session with `isNew = true`. -/
theorem claim_c6 (s : List Char) (h : decode s = none) :
    (loadSession (some s)).isNew = true ∧ (loadSession (some s)).fields = [] := by
  by_cases he : s.isEmpty
  · simp only [loadSession, if_pos he]
    exact ⟨rfl, rfl⟩
  · simp only [loadSession, if_neg he, h]
    exact ⟨rfl, rfl⟩

/-- Witness for C6 at the malformed cookie value `invalid`. -/
theorem claim_c6_witness :
    (loadSession (some ['i', 'n', 'v', 'a', 'l', 'i', 'd'])).isNew = true ∧
    (loadSession (some ['i', 'n', 'v', 'a', 'l', 'i', 'd'])).fields = [] :=
  claim_c6 ['i', 'n', 'v', 'a', 'l', 'i', 'd'] rfl

/-- Claim C8 counterexample: when `this.cookies.set` throws (for example
`secure: true` over an insecure connection, which the repository's test
suite drives to a 500), the exception propagates out of `onPreEnd`
before `return cb()` is reached, so the completion callback is NOT
invoked — refuting "the callback is called regardless of outcome". -/
theorem claim_c8_counterexample :
    runPreEnd SessState.destroyed
        (Except.error "Cannot send secure cookie over unencrypted connection") =
      Except.error "Cannot send secure cookie over unencrypted connection" ∧
    runPreEnd SessState.destroyed
        (Except.error "Cannot send secure cookie over unencrypted connection") ≠
      Except.ok 1 :=
  ⟨rfl, by simp [runPreEnd]⟩

/-- Claim C8 (amended): `onPreEnd` invokes its completion callback
exactly once whenever it reaches it — for every session state when
`cookies.set` succeeds, and always when the session was never touched
(no set call is attempted, which also covers a handler that raised
before finalization, since the hook itself never inspects the handler's
outcome); but when `cookies.set` throws, the exception propagates and
the callback is not invoked. -/
theorem claim_c8_amended (st : SessState) (r : Except String Unit) :
    (st = SessState.untouched → runPreEnd st r = Except.ok 1) ∧
    (∀ u, r = Except.ok u → runPreEnd st r = Except.ok 1) ∧
    (∀ e, st ≠ SessState.untouched → r = Except.error e → runPreEnd st r = Except.error e) := by
  refine ⟨fun hu => hu ▸ rfl, fun u hr => ?_, fun e hne hr => ?_⟩
  · subst hr
    cases st <;> rfl
  · subst hr
    cases st with
    | untouched => exact absurd rfl hne
    | destroyed => rfl
    | active s => rfl

/-- Witness for C8 (amended): a successful set call after `session =
null` calls the callback once; a throwing set call propagates. -/
theorem claim_c8_amended_witness :
    runPreEnd SessState.destroyed (Except.ok ()) = Except.ok 1 ∧
    runPreEnd (SessState.active ⟨true, []⟩) (Except.error "boom") = Except.error "boom" :=
  ⟨(claim_c8_amended SessState.destroyed (Except.ok ())).2.1 () rfl,
    (claim_c8_amended (SessState.active ⟨true, []⟩) (Except.error "boom")).2.2 "boom"
      (by simp) rfl⟩

/-- `setOptions` only ever adds own properties. -/
theorem setOptions_protoProps (ms : List (List Char × JsVal)) :
    ∀ o : JsOptions, (setOptions o ms).protoProps = o.protoProps := by
  induction ms with
  | nil => intro o; rfl
  | cons kv rest ih => intro o; exact ih (setOption o kv.1 kv.2)

/-- Claim C9: `sessionOptions` is a fresh `Object.create(options)` per
request; any sequence of per-request assignments leaves the base
configuration (the prototype) unchanged, and a fresh request's options
object reads every key straight through to the base configuration. -/
theorem claim_c9 (base ms : List (List Char × JsVal)) (k : List Char) :
    (setOptions (mkSessionOptions base) ms).protoProps = base ∧
    getOption (mkSessionOptions base) k = lookupProp base k :=
  ⟨setOptions_protoProps ms (mkSessionOptions base), rfl⟩

/-- `decode` of the empty cookie text fails (the parser accepts no empty
input). -/
theorem decode_nil : decode [] = none := rfl

/-- Claim C4 counterexample: the cookie value `MA==` (base64 of the JSON
text `0`) is present and decodes successfully — none of the claim's
conditions for `isNew = true` (no cookie, invalid signature, decode
failure) holds — yet the constructed session has `isNew = true`, because
the constructor computes `isNew` from JavaScript truthiness of the
decoded value, not from decode success. -/
theorem claim_c4_counterexample :
    decode ['M', 'A', '=', '='] = some (JsVal.num 0) ∧
    (some ['M', 'A', '=', '='] : Option (List Char)) ≠ none ∧
    (loadSession (some ['M', 'A', '=', '='])).isNew = true :=
  ⟨rfl, by simp, rfl⟩

/-- Claim C4 (amended): the lazily constructed session's `isNew` is a
boolean fixed at construction; it is `false` exactly when a cookie value
arrived (validly signed, so `cookies.get` returned it), was nonempty,
decoded successfully, AND the decoded value is JavaScript-truthy; in
every other case — no cookie, invalid signature, decode failure, or a
falsy decoded value (`null`, `false`, `0`, `""`) — it is `true`. -/
theorem claim_c4_amended (cookie : Option (List Char)) :
    (getSession SessState.untouched cookie).2 = some (loadSession cookie) ∧
    ((loadSession cookie).isNew = false ↔
      ∃ s v, cookie = some s ∧ s.isEmpty = false ∧ decode s = some v ∧
        jsTruthy v = true) := by
  refine ⟨rfl, ?_⟩
  cases cookie with
  | none => simp [loadSession, mkSession]
  | some s =>
    by_cases he : s.isEmpty
    · have hnil : s = [] := by simpa using he
      subst hnil
      simp [loadSession, mkSession, jsTruthy, decode_nil]
    · cases hd : decode s with
      | none =>
        simp only [loadSession, if_neg he, hd, mkSession]
        simp [hd]
      | some v =>
        simp only [loadSession, if_neg he, hd]
        cases htr : jsTruthy v with
        | false =>
          simp [mkSession, htr, hd]
        | true =>
          have hmk : mkSession (some v) = ⟨false, ownFields v⟩ := by
            simp [mkSession, htr]
          rw [hmk]
          constructor
          · intro _
            exact ⟨s, v, rfl, by simpa using he, hd, htr⟩
          · intro _
            rfl

/-- Claim C10: a cookie that decodes to a truthy non-object JSON value
still counts as an existing session (`isNew = false`); for a truthy
string payload the session's own fields are the string's character
indices paired with one-character strings; a falsy decoded value
(`null`, `0`, `""`, `false`) yields `isNew = true`. -/
theorem claim_c10 (s : List Char) (v : JsVal) (cs : List Char) :
    (decode s = some v → jsTruthy v = true → (loadSession (some s)).isNew = false) ∧
    (decode s = some (JsVal.str cs) → cs ≠ [] →
      (loadSession (some s)).fields =
        cs.enum.map fun p => (natToChars p.1, JsVal.str [p.2])) ∧
    (decode s = some v → jsTruthy v = false → (loadSession (some s)).isNew = true) := by
  have hne : ∀ w, decode s = some w → s.isEmpty = false := by
    intro w hw
    cases s with
    | nil => rw [decode_nil] at hw; exact absurd hw (by simp)
    | cons c cs2 => rfl
  refine ⟨?_, ?_, ?_⟩
  · intro hd htr
    simp [loadSession, hne v hd, hd, mkSession, htr]
  · intro hd hcs
    have htr : jsTruthy (JsVal.str cs) = true := by
      simp [jsTruthy, List.isEmpty_iff, hcs]
    simp [loadSession, hne _ hd, hd, mkSession, htr, ownFields]
  · intro hd htr
    simp [loadSession, hne v hd, hd, mkSession, htr]

/-- Witness for C10: `ImhpIg==` (base64 of the JSON text `"hi"`) decodes
to the truthy string `"hi"`, giving `isNew = false` with indexed
character fields; `MA==` (base64 of `0`) decodes to the falsy `0`,
giving `isNew = true`. -/
theorem claim_c10_witness :
    (loadSession (some ['I', 'm', 'h', 'p', 'I', 'g', '=', '='])).isNew = false ∧
    (loadSession (some ['I', 'm', 'h', 'p', 'I', 'g', '=', '='])).fields =
      [(['0'], JsVal.str ['h']), (['1'], JsVal.str ['i'])] ∧
    (loadSession (some ['M', 'A', '=', '='])).isNew = true := by
  refine ⟨(claim_c10 _ (JsVal.str ['h', 'i']) []).1 rfl rfl, ?_,
    (claim_c10 _ (JsVal.num 0) []).2.2 rfl rfl⟩
  have h := (claim_c10 ['I', 'm', 'h', 'p', 'I', 'g', '=', '='] JsVal.null
    ['h', 'i']).2.1 rfl (by simp)
  rw [h]
  rfl

/-! ## Roundtrip: base64 -/

/-- Reading back the character of a six-bit group recovers the group. -/
theorem b64CharVal_b64Char : ∀ s : Fin 64, b64CharVal (b64Char s) = some s := by decide

/-- No alphabet character is the padding character. -/
theorem b64Char_ne_pad : ∀ s : Fin 64, b64Char s ≠ '=' := by decide

/-- Base64 decoding inverts base64 encoding on every byte sequence. -/
theorem b64_roundtrip : ∀ bs : List (Fin 256), b64decode (b64encode bs) = some bs
  | [] => rfl
  | [a] => by
    have ha := a.isLt
    simp only [b64encode, b64e0, b64e1, b64decode, b64CharVal_b64Char]
    simp only [Fin.isValue, Fin.val_zero, Nat.zero_div, Nat.add_zero, reduceIte,
      and_self, Option.some.injEq, List.cons.injEq, and_true]
    exact Fin.ext (by simp only [b64d0]; omega)
  | [a, b] => by
    have ha := a.isLt
    have hb := b.isLt
    simp only [b64encode, b64e0, b64e1, b64e2, b64decode, b64CharVal_b64Char,
      b64Char_ne_pad, reduceIte, Option.some.injEq, List.cons.injEq, and_true]
    exact ⟨Fin.ext (by simp only [b64d0]; omega), Fin.ext (by simp only [b64d1]; omega)⟩
  | a :: b :: c :: rest => by
    have ha := a.isLt
    have hb := b.isLt
    have hc := c.isLt
    have ih := b64_roundtrip rest
    simp only [b64encode, b64e0, b64e1, b64e2, b64e3, b64decode, b64CharVal_b64Char,
      b64Char_ne_pad, reduceIte, ih, Option.map_some', Option.some.injEq,
      List.cons.injEq, and_true]
    refine ⟨Fin.ext (by simp only [b64d0]; omega),
      Fin.ext (by simp only [b64d1]; omega),
      Fin.ext (by simp only [b64d2]; omega)⟩

/-! ## Roundtrip: UTF-8 -/

/-- Value extraction for byte literals built in the encoder. -/
theorem fin256_val (m : Nat) (h : m < 256) : (⟨m, h⟩ : Fin 256).val = m := rfl

/-- Every Lean character is a Unicode scalar value: below 0x110000 and
outside the surrogate range. -/
theorem char_scalar (c : Char) :
    c.toNat < 1114112 ∧ ¬(55296 ≤ c.toNat ∧ c.toNat < 57344) := by
  have h := c.valid
  unfold UInt32.isValidChar Nat.isValidChar at h
  unfold Char.toNat
  rcases h with h | ⟨h1, h2⟩ <;> omega

set_option maxRecDepth 8000 in
/-- Reading one scalar back off the UTF-8 bytes of one character. -/
theorem utf8Step_encodeChar (c : Char) (rest : List (Fin 256)) :
    utf8Step (utf8EncodeChar c ++ rest) = some (c.toNat, rest) := by
  have hv := char_scalar c
  have hlt := hv.1
  by_cases h1 : c.toNat < 128
  · simp only [utf8EncodeChar, dif_pos h1, List.singleton_append]
    rw [utf8Step]
    simp only [fin256_val, h1, reduceIte]
  · by_cases h2 : c.toNat < 2048
    · have e1 : ¬(192 + c.toNat / 64 < 128) := by omega
      have e2 : ¬(192 + c.toNat / 64 < 194) := by omega
      have e3 : 192 + c.toNat / 64 < 224 := by omega
      have e4 : 128 ≤ 128 + c.toNat % 64 ∧ 128 + c.toNat % 64 < 192 := by omega
      have harith : (192 + c.toNat / 64 - 192) * 64 + (128 + c.toNat % 64 - 128) =
          c.toNat := by omega
      simp only [utf8EncodeChar, dif_neg h1, dif_pos h2, List.cons_append,
        List.nil_append]
      rw [utf8Step]
      simp only [fin256_val, e1, e2, e3, reduceIte]
      rw [utf8Step2]
      simp only [utf8Cont, fin256_val, e4, and_self, reduceIte, Option.some_bind, harith]
    · by_cases h3 : c.toNat < 65536
      · have e1 : ¬(224 + c.toNat / 4096 < 128) := by omega
        have e2 : ¬(224 + c.toNat / 4096 < 194) := by omega
        have e3 : ¬(224 + c.toNat / 4096 < 224) := by omega
        have e4 : 224 + c.toNat / 4096 < 240 := by omega
        have e5 : 128 ≤ 128 + c.toNat / 64 % 64 ∧ 128 + c.toNat / 64 % 64 < 192 := by
          omega
        have e6 : 128 ≤ 128 + c.toNat % 64 ∧ 128 + c.toNat % 64 < 192 := by omega
        have harith : (224 + c.toNat / 4096 - 224) * 4096 +
            (128 + c.toNat / 64 % 64 - 128) * 64 + (128 + c.toNat % 64 - 128) =
            c.toNat := by omega
        have e7 : ¬(c.toNat < 2048 ∨ (55296 ≤ c.toNat ∧ c.toNat < 57344)) := by
          have := hv.2
          omega
        simp only [utf8EncodeChar, dif_neg h1, dif_neg h2, dif_pos h3,
          List.cons_append, List.nil_append]
        rw [utf8Step]
        simp only [fin256_val, e1, e2, e3, e4, reduceIte]
        rw [utf8Step3]
        simp only [utf8Cont, fin256_val, e5, e6, and_self, reduceIte, Option.some_bind]
        rw [harith, if_neg e7]
      · have e1 : ¬(240 + c.toNat / 262144 % 16 < 128) := by omega
        have e2 : ¬(240 + c.toNat / 262144 % 16 < 194) := by omega
        have e3 : ¬(240 + c.toNat / 262144 % 16 < 224) := by omega
        have e4 : ¬(240 + c.toNat / 262144 % 16 < 240) := by omega
        have e5 : 240 + c.toNat / 262144 % 16 < 245 := by omega
        have e6 : 128 ≤ 128 + c.toNat / 4096 % 64 ∧ 128 + c.toNat / 4096 % 64 < 192 := by
          omega
        have e7 : 128 ≤ 128 + c.toNat / 64 % 64 ∧ 128 + c.toNat / 64 % 64 < 192 := by
          omega
        have e8 : 128 ≤ 128 + c.toNat % 64 ∧ 128 + c.toNat % 64 < 192 := by omega
        have harith : (240 + c.toNat / 262144 % 16 - 240) * 262144 +
            (128 + c.toNat / 4096 % 64 - 128) * 4096 +
            (128 + c.toNat / 64 % 64 - 128) * 64 + (128 + c.toNat % 64 - 128) =
            c.toNat := by omega
        have e9 : ¬(c.toNat < 65536 ∨ 1114112 ≤ c.toNat) := by omega
        simp only [utf8EncodeChar, dif_neg h1, dif_neg h2, dif_neg h3,
          List.cons_append, List.nil_append]
        rw [utf8Step]
        simp only [fin256_val, e1, e2, e3, e4, e5, reduceIte]
        rw [utf8Step4]
        simp only [utf8Cont, fin256_val, e6, e7, e8, and_self, reduceIte, Option.some_bind]
        rw [harith, if_neg e9]

/-- The UTF-8 encoding of a character is nonempty. -/
theorem utf8EncodeChar_ne_nil (c : Char) : utf8EncodeChar c ≠ [] := by
  unfold utf8EncodeChar
  split_ifs <;> simp

/-- A string is no longer than its UTF-8 encoding. -/
theorem length_le_utf8Encode : ∀ s : List Char, s.length ≤ (utf8Encode s).length
  | [] => Nat.le_refl 0
  | c :: cs => by
    have ih := length_le_utf8Encode cs
    have hc : 1 ≤ (utf8EncodeChar c).length := by
      cases he : utf8EncodeChar c with
      | nil => exact absurd he (utf8EncodeChar_ne_nil c)
      | cons b bs => simp
    show (c :: cs).length ≤ (utf8EncodeChar c ++ utf8Encode cs).length
    simp only [List.length_cons, List.length_append]
    omega

/-- The decode loop inverts the encoder given enough fuel. -/
theorem utf8DecodeAux_roundtrip :
    ∀ (s : List Char) (fuel : Nat), s.length < fuel →
      utf8DecodeAux fuel (utf8Encode s) = some s
  | [], 0, h => absurd h (by omega)
  | [], fuel + 1, _ => rfl
  | c :: cs, 0, h => absurd h (by omega)
  | c :: cs, fuel + 1, h => by
    have ih := utf8DecodeAux_roundtrip cs fuel (by simp at h; omega)
    have hofn := Char.ofNat_toNat c
    have henc : utf8Encode (c :: cs) = utf8EncodeChar c ++ utf8Encode cs := rfl
    have hne : (utf8EncodeChar c ++ utf8Encode cs).isEmpty = false := by
      cases he : utf8EncodeChar c with
      | nil => exact absurd he (utf8EncodeChar_ne_nil c)
      | cons b bs => simp [he]
    rw [henc, utf8DecodeAux, if_neg (by simp [hne]), utf8Step_encodeChar]
    simp only [ih, Option.map_some', hofn]

/-- UTF-8 decoding inverts UTF-8 encoding on every string. -/
theorem utf8_roundtrip (s : List Char) : utf8Decode (utf8Encode s) = some s :=
  utf8DecodeAux_roundtrip s ((utf8Encode s).length + 1)
    (by have := length_le_utf8Encode s; omega)

/-! ## Roundtrip: decimal numbers -/

/-- The digit printer is fuel-irrelevant once the fuel dominates `n`. -/
theorem natToCharsAux_fuel (n : Nat) : ∀ fuel1 fuel2, n < fuel1 → n < fuel2 →
    natToCharsAux fuel1 n = natToCharsAux fuel2 n := by
  induction n using Nat.strong_induction_on with
  | _ n ih =>
    intro fuel1 fuel2 h1 h2
    cases fuel1 with
    | zero => omega
    | succ f1 =>
      cases fuel2 with
      | zero => omega
      | succ f2 =>
        simp only [natToCharsAux]
        by_cases hn : n < 10
        · simp [hn]
        · rw [if_neg hn, if_neg hn,
            ih (n / 10) (by omega) f1 f2 (by omega) (by omega)]

/-- Unfolding: one digit for small numbers. -/
theorem natToChars_lt10 (n : Nat) (h : n < 10) : natToChars n = [digitChar n] := by
  unfold natToChars
  simp [natToCharsAux, h]

/-- Unfolding: the last digit splits off for large numbers. -/
theorem natToChars_ge10 (n : Nat) (h : 10 ≤ n) :
    natToChars n = natToChars (n / 10) ++ [digitChar (n % 10)] := by
  unfold natToChars
  rw [natToCharsAux]
  rw [if_neg (by omega)]
  rw [natToCharsAux_fuel (n / 10) n (n / 10 + 1) (by omega) (by omega)]

/-- The printed digit of `d < 10` reads back as the digit `d`. -/
theorem digitChar_toNat (d : Nat) (h : d < 10) : (digitChar d).toNat = 48 + d := by
  interval_cases d <;> decide

/-- The printed digit of `d < 10` is a digit character. -/
theorem isDigitChar_digitChar (d : Nat) (h : d < 10) :
    isDigitChar (digitChar d) = true := by
  interval_cases d <;> decide

/-- Every character the digit printer emits is a digit character. -/
theorem natToChars_digits (n : Nat) : ∀ c ∈ natToChars n, isDigitChar c = true := by
  induction n using Nat.strong_induction_on with
  | _ n ih =>
    by_cases hn : n < 10
    · rw [natToChars_lt10 n hn]
      intro c hc
      rw [List.mem_singleton] at hc
      subst hc
      exact isDigitChar_digitChar n hn
    · rw [natToChars_ge10 n (by omega)]
      intro c hc
      rw [List.mem_append] at hc
      rcases hc with hc | hc
      · exact ih (n / 10) (by omega) c hc
      · rw [List.mem_singleton] at hc
        subst hc
        exact isDigitChar_digitChar (n % 10) (by omega)

/-- The digit printer never prints nothing. -/
theorem natToChars_ne_nil (n : Nat) : natToChars n ≠ [] := by
  by_cases hn : n < 10
  · rw [natToChars_lt10 n hn]
    simp
  · rw [natToChars_ge10 n (by omega)]
    simp

/-- Reading the printed digits of `n` on top of accumulator `acc`. -/
theorem natToChars_foldl (n : Nat) : ∀ acc : Nat,
    (natToChars n).foldl (fun a c => a * 10 + (c.toNat - 48)) acc =
      acc * 10 ^ (natToChars n).length + n := by
  induction n using Nat.strong_induction_on with
  | _ n ih =>
    intro acc
    by_cases hn : n < 10
    · rw [natToChars_lt10 n hn]
      simp [digitChar_toNat n hn]
    · rw [natToChars_ge10 n (by omega), List.foldl_append, ih (n / 10) (by omega),
        List.length_append]
      simp only [List.foldl_cons, List.foldl_nil, List.length_cons, List.length_nil,
        digitChar_toNat (n % 10) (by omega)]
      have hdm : n / 10 * 10 + n % 10 = n := by omega
      have hpow : 10 ^ ((natToChars (n / 10)).length + (0 + 1)) =
          10 ^ (natToChars (n / 10)).length * 10 := by
        rw [Nat.zero_add, Nat.pow_succ]
      rw [hpow]
      have h48 : 48 + n % 10 - 48 = n % 10 := by omega
      rw [h48]
      nlinarith [hdm]

/-- `takeDigits` consumes exactly a run of digit characters, stopping at
a non-digit delimiter. -/
theorem takeDigits_append : ∀ (ds : List Char) (acc : Nat) (rest : List Char),
    (∀ c ∈ ds, isDigitChar c = true) → numDelim rest = true →
    takeDigits acc (ds ++ rest) =
      (ds.foldl (fun a c => a * 10 + (c.toNat - 48)) acc, rest)
  | [], acc, rest, _, hr => by
    cases rest with
    | nil => rfl
    | cons c r =>
      simp only [numDelim, Bool.not_eq_true'] at hr
      simp only [List.nil_append, takeDigits, List.foldl_nil]
      rw [if_neg (by simp [hr])]
  | d :: ds, acc, rest, hds, hr => by
    have hd : isDigitChar d = true := hds d (List.mem_cons_self d ds)
    simp only [List.cons_append, takeDigits, hd, reduceIte, List.foldl_cons]
    exact takeDigits_append ds (acc * 10 + (d.toNat - 48)) rest
      (fun c hc => hds c (List.mem_cons_of_mem d hc)) hr

/-- Parsing the printed digits of `n` recovers `n`, leaving a non-digit
remainder untouched. -/
theorem parseNat_natToChars (n : Nat) (rest : List Char) (hr : numDelim rest = true) :
    parseNat (natToChars n ++ rest) = some (n, rest) := by
  cases hnc : natToChars n with
  | nil => exact absurd hnc (natToChars_ne_nil n)
  | cons d ds =>
    have hd : isDigitChar d = true := natToChars_digits n d (by rw [hnc]; exact List.mem_cons_self d ds)
    have hds : ∀ c ∈ ds, isDigitChar c = true := fun c hc =>
      natToChars_digits n c (by rw [hnc]; exact List.mem_cons_of_mem d hc)
    have hval := natToChars_foldl n 0
    rw [hnc] at hval
    simp only [List.foldl_cons, Nat.zero_mul, Nat.zero_add] at hval
    simp only [List.cons_append, parseNat, hd, reduceIte]
    rw [takeDigits_append ds (d.toNat - 48) rest hds hr, hval]

/-! ## Roundtrip: JSON string literals -/

/-- Reading back a printed hexadecimal digit. -/
theorem hexVal_hexChar : ∀ d : Fin 16, hexVal (hexChar d.val) = some d.val := by decide

/-- The quoted-string printer splits as a cons for parsing. -/
theorem quoteString_append (k x : List Char) :
    quoteString k ++ x = '"' :: (escapeString k ++ '"' :: x) := by
  simp [quoteString, List.append_assoc]

/-- Every escape sequence is at least one character long. -/
theorem escapeChar_length_pos (c : Char) : 1 ≤ (escapeChar c).length := by
  unfold escapeChar
  split_ifs <;> simp

/-- Splitting the escaped text of a cons. -/
theorem escapeString_cons (c : Char) (s : List Char) :
    escapeString (c :: s) = escapeChar c ++ escapeString s := by
  simp [escapeString]

/-- A string is no longer than its escaped text. -/
theorem length_le_escapeString : ∀ s : List Char, s.length ≤ (escapeString s).length
  | [] => Nat.le_refl 0
  | c :: s => by
    have ih := length_le_escapeString s
    have hc := escapeChar_length_pos c
    rw [escapeString_cons, List.length_append, List.length_cons]
    omega

/-- Unfolding of the string-body parser one character in. -/
theorem parseStringBodyAux_cons (fuel : Nat) (c : Char) (rest : List Char) :
    parseStringBodyAux (fuel + 1) (c :: rest) =
      (if c = '"' then some ([], rest)
      else if c = '\\' then
        match rest with
        | [] => none
        | e :: rest1 =>
          if e = 'u' then
            match parseHex4 rest1 with
            | some (ch, rest2) =>
              (parseStringBodyAux fuel rest2).map fun r => (ch :: r.1, r.2)
            | none => none
          else
            match escVal e with
            | some ch => (parseStringBodyAux fuel rest1).map fun r => (ch :: r.1, r.2)
            | none => none
      else if c.toNat < 32 then none
      else (parseStringBodyAux fuel rest).map fun r => (c :: r.1, r.2)) := by
  rw [parseStringBodyAux.eq_def]

/-- Unfolding of the string-body parser at an escape sequence. -/
theorem parseStringBodyAux_esc (fuel : Nat) (e : Char) (rest1 : List Char) :
    parseStringBodyAux (fuel + 1) ('\\' :: e :: rest1) =
      (if e = 'u' then
        match parseHex4 rest1 with
        | some (ch, rest2) =>
          (parseStringBodyAux fuel rest2).map fun r => (ch :: r.1, r.2)
        | none => none
      else
        match escVal e with
        | some ch => (parseStringBodyAux fuel rest1).map fun r => (ch :: r.1, r.2)
        | none => none) := by
  rw [parseStringBodyAux_cons]
  rw [if_neg (by decide), if_pos rfl]

/-- Parsing an escaped string body recovers the original characters and
stops right after the closing quote, given enough fuel. -/
theorem parseStringBodyAux_escape : ∀ (s : List Char) (fuel : Nat) (rest : List Char),
    s.length < fuel →
    parseStringBodyAux fuel (escapeString s ++ '"' :: rest) = some (s, rest)
  | [], 0, _, h => absurd h (by omega)
  | [], fuel + 1, rest, _ => by
    show parseStringBodyAux (fuel + 1) ('"' :: rest) = some ([], rest)
    rw [parseStringBodyAux_cons, if_pos rfl]
  | c :: s, 0, _, h => absurd h (by omega)
  | c :: s, fuel + 1, rest, h => by
    have ih := parseStringBodyAux_escape s fuel rest (by simp at h; omega)
    have hofn := Char.ofNat_toNat c
    rw [escapeString_cons, List.append_assoc]
    by_cases h1 : c = '"'
    · subst h1
      rw [show escapeChar '"' = ['\\', '"'] from rfl]
      rw [List.cons_append, List.cons_append, List.nil_append, parseStringBodyAux_esc]
      rw [if_neg (by decide), show escVal '"' = some '"' from rfl]
      show (parseStringBodyAux fuel (escapeString s ++ '"' :: rest)).map
          (fun r => ('"' :: r.1, r.2)) = some ('"' :: s, rest)
      rw [ih, Option.map_some']
    · by_cases h2 : c = '\\'
      · subst h2
        rw [show escapeChar '\\' = ['\\', '\\'] from rfl]
        rw [List.cons_append, List.cons_append, List.nil_append,
          parseStringBodyAux_esc]
        rw [if_neg (by decide), show escVal '\\' = some '\\' from rfl]
        show (parseStringBodyAux fuel (escapeString s ++ '"' :: rest)).map
            (fun r => ('\\' :: r.1, r.2)) = some ('\\' :: s, rest)
        rw [ih, Option.map_some']
      · by_cases h3 : c.toNat = 8
        · have hesc : escapeChar c = ['\\', 'b'] := by
            unfold escapeChar
            rw [if_neg h1, if_neg h2, if_pos h3]
          have hc : Char.ofNat 8 = c := by rw [← h3, hofn]
          rw [hesc, List.cons_append, List.cons_append, List.nil_append,
            parseStringBodyAux_esc]
          rw [if_neg (by decide), show escVal 'b' = some (Char.ofNat 8) from rfl]
          show (parseStringBodyAux fuel (escapeString s ++ '"' :: rest)).map
              (fun r => (Char.ofNat 8 :: r.1, r.2)) = some (c :: s, rest)
          rw [ih, Option.map_some', hc]
        · by_cases h4 : c.toNat = 9
          · have hesc : escapeChar c = ['\\', 't'] := by
              unfold escapeChar
              rw [if_neg h1, if_neg h2, if_neg h3, if_pos h4]
            have hc : Char.ofNat 9 = c := by rw [← h4, hofn]
            rw [hesc, List.cons_append, List.cons_append, List.nil_append,
              parseStringBodyAux_esc]
            rw [if_neg (by decide), show escVal 't' = some (Char.ofNat 9) from rfl]
            show (parseStringBodyAux fuel (escapeString s ++ '"' :: rest)).map
                (fun r => (Char.ofNat 9 :: r.1, r.2)) = some (c :: s, rest)
            rw [ih, Option.map_some', hc]
          · by_cases h5 : c.toNat = 10
            · have hesc : escapeChar c = ['\\', 'n'] := by
                unfold escapeChar
                rw [if_neg h1, if_neg h2, if_neg h3, if_neg h4, if_pos h5]
              have hc : Char.ofNat 10 = c := by rw [← h5, hofn]
              rw [hesc, List.cons_append, List.cons_append, List.nil_append,
                parseStringBodyAux_esc]
              rw [if_neg (by decide), show escVal 'n' = some (Char.ofNat 10) from rfl]
              show (parseStringBodyAux fuel (escapeString s ++ '"' :: rest)).map
                  (fun r => (Char.ofNat 10 :: r.1, r.2)) = some (c :: s, rest)
              rw [ih, Option.map_some', hc]
            · by_cases h6 : c.toNat = 12
              · have hesc : escapeChar c = ['\\', 'f'] := by
                  unfold escapeChar
                  rw [if_neg h1, if_neg h2, if_neg h3, if_neg h4, if_neg h5,
                    if_pos h6]
                have hc : Char.ofNat 12 = c := by rw [← h6, hofn]
                rw [hesc, List.cons_append, List.cons_append, List.nil_append,
                  parseStringBodyAux_esc]
                rw [if_neg (by decide),
                  show escVal 'f' = some (Char.ofNat 12) from rfl]
                show (parseStringBodyAux fuel (escapeString s ++ '"' :: rest)).map
                    (fun r => (Char.ofNat 12 :: r.1, r.2)) = some (c :: s, rest)
                rw [ih, Option.map_some', hc]
              · by_cases h7 : c.toNat = 13
                · have hesc : escapeChar c = ['\\', 'r'] := by
                    unfold escapeChar
                    rw [if_neg h1, if_neg h2, if_neg h3, if_neg h4, if_neg h5,
                      if_neg h6, if_pos h7]
                  have hc : Char.ofNat 13 = c := by rw [← h7, hofn]
                  rw [hesc, List.cons_append, List.cons_append, List.nil_append,
                    parseStringBodyAux_esc]
                  rw [if_neg (by decide),
                    show escVal 'r' = some (Char.ofNat 13) from rfl]
                  show (parseStringBodyAux fuel (escapeString s ++ '"' :: rest)).map
                      (fun r => (Char.ofNat 13 :: r.1, r.2)) = some (c :: s, rest)
                  rw [ih, Option.map_some', hc]
                · by_cases h8 : c.toNat < 32
                  · have hesc : escapeChar c = ['\\', 'u', '0', '0',
                        hexChar (c.toNat / 16), hexChar (c.toNat % 16)] := by
                      unfold escapeChar
                      rw [if_neg h1, if_neg h2, if_neg h3, if_neg h4, if_neg h5,
                        if_neg h6, if_neg h7, if_pos h8]
                    have hx1 : hexVal (hexChar (c.toNat / 16)) = some (c.toNat / 16) :=
                      hexVal_hexChar ⟨c.toNat / 16, by omega⟩
                    have hx2 : hexVal (hexChar (c.toNat % 16)) = some (c.toNat % 16) :=
                      hexVal_hexChar ⟨c.toNat % 16, by omega⟩
                    rw [hesc]
                    simp only [List.cons_append, List.nil_append]
                    rw [parseStringBodyAux_esc, if_pos rfl]
                    rw [parseHex4]
                    simp only [show hexVal '0' = some 0 from rfl, hx1, hx2]
                    have e1 : ¬(55296 ≤ 0 * 4096 + 0 * 256 + c.toNat / 16 * 16 +
                        c.toNat % 16 ∧ 0 * 4096 + 0 * 256 + c.toNat / 16 * 16 +
                        c.toNat % 16 < 57344) := by omega
                    rw [if_neg e1]
                    have harith : 0 * 4096 + 0 * 256 + c.toNat / 16 * 16 +
                        c.toNat % 16 = c.toNat := by omega
                    rw [harith, hofn]
                    show (parseStringBodyAux fuel (escapeString s ++ '"' :: rest)).map
                        (fun r => (c :: r.1, r.2)) = some (c :: s, rest)
                    rw [ih, Option.map_some']
                  · have hesc : escapeChar c = [c] := by
                      unfold escapeChar
                      rw [if_neg h1, if_neg h2, if_neg h3, if_neg h4, if_neg h5,
                        if_neg h6, if_neg h7, if_neg h8]
                    rw [hesc, List.cons_append, List.nil_append,
                      parseStringBodyAux_cons]
                    rw [if_neg h1, if_neg h2, if_neg (by omega)]
                    rw [ih, Option.map_some']

/-- Parsing an escaped string body recovers the original characters. -/
theorem parseStringBody_escape (s rest : List Char) :
    parseStringBody (escapeString s ++ '"' :: rest) = some (s, rest) := by
  unfold parseStringBody
  refine parseStringBodyAux_escape s _ rest ?_
  have h1 := length_le_escapeString s
  simp only [List.length_append, List.length_cons]
  omega

/-! ## Roundtrip: the main parser -/

/-- Consuming a literal prefix of the input succeeds. -/
theorem dropPrefixChars_self : ∀ p s : List Char, dropPrefixChars p (p ++ s) = some s
  | [], s => rfl
  | c :: p, s => by
    show dropPrefixChars (c :: p) (c :: (p ++ s)) = some s
    rw [dropPrefixChars, if_pos rfl]
    exact dropPrefixChars_self p s

/-- The elements printer splits into head and comma-tail. -/
theorem stringifyElems_cons : ∀ (v : JsVal) (vs : List JsVal),
    stringifyElems (v :: vs) = stringify v ++ elemsTail vs
  | v, [] => by
    rw [show stringifyElems [v] = stringify v from rfl]
    simp [elemsTail]
  | v, w :: ws => by
    rw [show stringifyElems (v :: w :: ws) = stringify v ++ ',' :: stringifyElems (w :: ws) from rfl]
    rw [stringifyElems_cons w ws]
    simp [elemsTail]

/-- The members printer splits into head and comma-tail. -/
theorem stringifyFields_cons : ∀ (kv : List Char × JsVal) (kvs : List (List Char × JsVal)),
    stringifyFields (kv :: kvs) = quoteString kv.1 ++ ':' :: stringify kv.2 ++ fieldsTail kvs
  | (k, v), [] => by
    rw [show stringifyFields [(k, v)] = quoteString k ++ ':' :: stringify v from rfl]
    simp [fieldsTail]
  | (k, v), kw :: kws => by
    rw [show stringifyFields ((k, v) :: kw :: kws) =
      quoteString k ++ ':' :: stringify v ++ ',' :: stringifyFields (kw :: kws) from rfl]
    rw [stringifyFields_cons kw kws]
    simp [fieldsTail]

/-- The tail after an array element starts with a comma or bracket. -/
theorem numDelim_elemsTail (vs : List JsVal) (rest : List Char) :
    numDelim (elemsTail vs ++ ']' :: rest) = true := by
  cases vs with
  | nil => rfl
  | cons v vs => rfl

/-- The tail after an object member starts with a comma or brace. -/
theorem numDelim_fieldsTail (kvs : List (List Char × JsVal)) (rest : List Char) :
    numDelim (fieldsTail kvs ++ '}' :: rest) = true := by
  cases kvs with
  | nil => rfl
  | cons kv kvs => rfl

/-- Digit characters are none of the parser's keyword heads. -/
theorem isDigitChar_ne (d : Char) (h : isDigitChar d = true) :
    ¬d = 'n' ∧ ¬d = 't' ∧ ¬d = 'f' ∧ ¬d = '"' ∧ ¬d = '-' ∧ ¬d = ']' ∧ ¬d = '}' := by
  refine ⟨?_, ?_, ?_, ?_, ?_, ?_, ?_⟩ <;> intro he <;> subst he <;>
    exact absurd h (by decide)

/-- Every printed value starts with one of the parser's entry characters. -/
theorem stringify_head (v : JsVal) : ∃ c cs, stringify v = c :: cs ∧
    (c = 'n' ∨ c = 't' ∨ c = 'f' ∨ c = '"' ∨ c = '-' ∨ isDigitChar c = true ∨
      c = '[' ∨ c = '{') := by
  cases v with
  | null => exact ⟨'n', ['u', 'l', 'l'], rfl, by simp⟩
  | bool b =>
    cases b with
    | true => exact ⟨'t', ['r', 'u', 'e'], rfl, by simp⟩
    | false => exact ⟨'f', ['a', 'l', 's', 'e'], rfl, by simp⟩
  | num n =>
    cases n with
    | ofNat m =>
      have hne := natToChars_ne_nil m
      cases hm : natToChars m with
      | nil => exact absurd hm hne
      | cons d ds =>
        have hd : isDigitChar d = true :=
          natToChars_digits m d (by rw [hm]; exact List.mem_cons_self d ds)
        exact ⟨d, ds, by rw [show stringify (JsVal.num (Int.ofNat m)) =
          natToChars m from rfl, hm], by simp [hd]⟩
    | negSucc m =>
      exact ⟨'-', natToChars (m + 1), by
        rw [show stringify (JsVal.num (Int.negSucc m)) =
          '-' :: natToChars (m + 1) from rfl], by simp⟩
  | str s => exact ⟨'"', escapeString s ++ ['"'], rfl, by simp⟩
  | arr es => exact ⟨'[', stringifyElems es ++ [']'], rfl, by simp⟩
  | obj fs => exact ⟨'{', stringifyFields fs ++ ['}'], rfl, by simp⟩

/-- Sizes are positive. -/
theorem jsize_pos : ∀ v : JsVal, 1 ≤ jsize v := by
  intro v
  cases v with
  | null => exact Nat.le_refl 1
  | bool b => exact Nat.le_refl 1
  | num n => exact Nat.le_refl 1
  | str s => exact Nat.le_refl 1
  | arr es => cases es <;> simp [jsize] <;> omega
  | obj fs => cases fs <;> simp [jsize] <;> omega

/-- Element tails cost at least one unit of fuel. -/
theorem jsizeElems_pos (vs : List JsVal) : 1 ≤ jsizeElems vs := by
  cases vs <;> simp [jsizeElems] <;> omega

/-- Member tails cost at least one unit of fuel. -/
theorem jsizeFields_pos (kvs : List (List Char × JsVal)) : 1 ≤ jsizeFields kvs := by
  cases kvs <;> simp [jsizeFields] <;> omega

/-- Unfolding of `parseVal` one character in. -/
theorem parseVal_cons (fuel : Nat) (c : Char) (s : List Char) :
    parseVal (fuel + 1) (c :: s) =
      (if c = 'n' then (dropPrefixChars ['u', 'l', 'l'] s).map fun r => (JsVal.null, r)
      else if c = 't' then (dropPrefixChars ['r', 'u', 'e'] s).map fun r => (JsVal.bool true, r)
      else if c = 'f' then (dropPrefixChars ['a', 'l', 's', 'e'] s).map fun r => (JsVal.bool false, r)
      else if c = '"' then (parseStringBody s).map fun r => (JsVal.str r.1, r.2)
      else if c = '-' then (parseNat s).map fun r => (JsVal.num (-(r.1 : Int)), r.2)
      else if isDigitChar c then (parseNat (c :: s)).map fun r => (JsVal.num (r.1 : Int), r.2)
      else if c = '[' then
        match s with
        | [] => none
        | c1 :: s1 =>
          if c1 = ']' then some (JsVal.arr [], s1)
          else
            match parseVal fuel (c1 :: s1) with
            | some (v, s2) => parseArrRest fuel [v] s2
            | none => none
      else if c = '{' then
        match s with
        | [] => none
        | c1 :: s1 =>
          if c1 = '}' then some (JsVal.obj [], s1)
          else
            match parseMember fuel (c1 :: s1) with
            | some (kv, s2) => parseObjRest fuel [kv] s2
            | none => none
      else none) := by
  rw [parseVal.eq_def]

/-- Unfolding of `parseArrRest` at the closing bracket. -/
theorem parseArrRest_close (fuel : Nat) (acc : List JsVal) (s : List Char) :
    parseArrRest (fuel + 1) acc (']' :: s) = some (JsVal.arr acc, s) := by
  rw [parseArrRest.eq_def]
  rfl

/-- Unfolding of `parseArrRest` at a comma. -/
theorem parseArrRest_comma (fuel : Nat) (acc : List JsVal) (s : List Char) :
    parseArrRest (fuel + 1) acc (',' :: s) =
      (match parseVal fuel s with
      | some (v, s1) => parseArrRest fuel (acc ++ [v]) s1
      | none => none) := by
  rw [parseArrRest.eq_def]
  rfl

/-- Unfolding of `parseMember` at the opening quote. -/
theorem parseMember_quote (fuel : Nat) (s : List Char) :
    parseMember (fuel + 1) ('"' :: s) =
      (match parseStringBody s with
      | some (k, s1) =>
        match s1 with
        | ':' :: s2 => (parseVal fuel s2).map fun r => ((k, r.1), r.2)
        | _ => none
      | none => none) := by
  rw [parseMember.eq_def]
  rfl

/-- Unfolding of `parseObjRest` at the closing brace. -/
theorem parseObjRest_close (fuel : Nat) (acc : List (List Char × JsVal)) (s : List Char) :
    parseObjRest (fuel + 1) acc ('}' :: s) = some (JsVal.obj acc, s) := by
  rw [parseObjRest.eq_def]
  rfl

/-- Unfolding of `parseObjRest` at a comma. -/
theorem parseObjRest_comma (fuel : Nat) (acc : List (List Char × JsVal)) (s : List Char) :
    parseObjRest (fuel + 1) acc (',' :: s) =
      (match parseMember fuel s with
      | some (kv, s1) => parseObjRest fuel (acc ++ [kv]) s1
      | none => none) := by
  rw [parseObjRest.eq_def]
  rfl

/-- A number may be followed by any delimiter-headed tail; other values
do not constrain their tail. -/
theorem delimOk_of (v : JsVal) (rest : List Char) (h : numDelim rest = true) :
    delimOk v rest := by
  cases v <;> first | exact h | trivial

/-- The parser inverts the printer, given fuel above the value's size:
simultaneously for values, members, array tails and object tails. -/
theorem parse_roundtrip_aux : ∀ fuel : Nat,
    (∀ (v : JsVal) (rest : List Char), jsize v ≤ fuel → delimOk v rest →
      parseVal fuel (stringify v ++ rest) = some (v, rest)) ∧
    (∀ (k : List Char) (v : JsVal) (rest : List Char), jsize v + 1 ≤ fuel →
      delimOk v rest →
      parseMember fuel (quoteString k ++ ':' :: stringify v ++ rest) =
        some ((k, v), rest)) ∧
    (∀ (vs acc : List JsVal) (rest : List Char), jsizeElems vs ≤ fuel →
      parseArrRest fuel acc (elemsTail vs ++ ']' :: rest) =
        some (JsVal.arr (acc ++ vs), rest)) ∧
    (∀ (kvs acc : List (List Char × JsVal)) (rest : List Char), jsizeFields kvs ≤ fuel →
      parseObjRest fuel acc (fieldsTail kvs ++ '}' :: rest) =
        some (JsVal.obj (acc ++ kvs), rest)) := by
  intro fuel
  induction fuel using Nat.strong_induction_on with
  | _ fuel ih =>
    refine ⟨?_, ?_, ?_, ?_⟩
    · intro v rest hsz hdelim
      cases fuel with
      | zero => exact absurd hsz (by have := jsize_pos v; omega)
      | succ f =>
        have ihf := ih f (by omega)
        cases v with
        | null =>
          rw [show stringify JsVal.null = ['n', 'u', 'l', 'l'] from rfl]
          simp only [List.cons_append, List.nil_append]
          rw [parseVal_cons, if_pos rfl]
          rw [show ('u' :: 'l' :: 'l' :: rest) = ['u', 'l', 'l'] ++ rest from rfl]
          rw [dropPrefixChars_self, Option.map_some']
        | bool b =>
          cases b with
          | true =>
            rw [show stringify (JsVal.bool true) = ['t', 'r', 'u', 'e'] from rfl]
            simp only [List.cons_append, List.nil_append]
            rw [parseVal_cons, if_neg (by decide), if_pos rfl]
            rw [show ('r' :: 'u' :: 'e' :: rest) = ['r', 'u', 'e'] ++ rest from rfl]
            rw [dropPrefixChars_self, Option.map_some']
          | false =>
            rw [show stringify (JsVal.bool false) = ['f', 'a', 'l', 's', 'e'] from rfl]
            simp only [List.cons_append, List.nil_append]
            rw [parseVal_cons, if_neg (by decide), if_neg (by decide), if_pos rfl]
            rw [show ('a' :: 'l' :: 's' :: 'e' :: rest) =
              ['a', 'l', 's', 'e'] ++ rest from rfl]
            rw [dropPrefixChars_self, Option.map_some']
        | num n =>
          have hnd : numDelim rest = true := hdelim
          cases n with
          | ofNat m =>
            rw [show stringify (JsVal.num (Int.ofNat m)) = natToChars m from rfl]
            cases hm : natToChars m with
            | nil => exact absurd hm (natToChars_ne_nil m)
            | cons d ds =>
              have hd : isDigitChar d = true :=
                natToChars_digits m d (by rw [hm]; exact List.mem_cons_self d ds)
              obtain ⟨g1, g2, g3, g4, g5, _, _⟩ := isDigitChar_ne d hd
              rw [List.cons_append, parseVal_cons]
              rw [if_neg g1, if_neg g2, if_neg g3, if_neg g4, if_neg g5, if_pos hd]
              rw [← List.cons_append, ← hm]
              rw [parseNat_natToChars m rest hnd, Option.map_some']
              rfl
          | negSucc m =>
            rw [show stringify (JsVal.num (Int.negSucc m)) =
              '-' :: natToChars (m + 1) from rfl]
            rw [List.cons_append, parseVal_cons]
            rw [if_neg (by decide), if_neg (by decide), if_neg (by decide),
              if_neg (by decide), if_pos rfl]
            rw [parseNat_natToChars (m + 1) rest hnd, Option.map_some']
            show some (JsVal.num (-((m + 1 : Nat) : Int)), rest) =
              some (JsVal.num (Int.negSucc m), rest)
            have hneg : (-((m : Nat) + 1 : Int)) = Int.negSucc m := by
              rw [Int.negSucc_eq]
            rw [show ((((m + 1 : Nat)) : Int)) = ((m : Nat) + 1 : Int) from by push_cast; ring]
            rw [hneg]
        | str s =>
          rw [show stringify (JsVal.str s) = quoteString s from rfl, quoteString_append]
          rw [parseVal_cons]
          rw [if_neg (by decide), if_neg (by decide), if_neg (by decide), if_pos rfl]
          rw [parseStringBody_escape, Option.map_some']
        | arr es =>
          cases es with
          | nil =>
            rw [show stringify (JsVal.arr []) = ['[', ']'] from rfl]
            simp only [List.cons_append, List.nil_append]
            rw [parseVal_cons]
            rw [if_neg (by decide), if_neg (by decide), if_neg (by decide),
              if_neg (by decide), if_neg (by decide), if_neg (by decide), if_pos rfl]
            rfl
          | cons v vs =>
            have harr : stringify (JsVal.arr (v :: vs)) ++ rest =
                '[' :: (stringify v ++ (elemsTail vs ++ ']' :: rest)) := by
              rw [show stringify (JsVal.arr (v :: vs)) =
                '[' :: (stringifyElems (v :: vs) ++ [']']) from rfl, stringifyElems_cons]
              simp [List.append_assoc]
            rw [harr, parseVal_cons]
            rw [if_neg (by decide), if_neg (by decide), if_neg (by decide),
              if_neg (by decide), if_neg (by decide), if_neg (by decide), if_pos rfl]
            obtain ⟨c1, cs1, hv1, hmem⟩ := stringify_head v
            have hszv : jsize v ≤ f := by
              simp only [jsize] at hsz
              have := jsizeElems_pos vs
              omega
            have hsze : jsizeElems vs ≤ f := by
              simp only [jsize] at hsz
              have := jsize_pos v
              omega
            have hdel : delimOk v (elemsTail vs ++ ']' :: rest) :=
              delimOk_of v _ (numDelim_elemsTail vs rest)
            have hne1 : ¬c1 = ']' := by
              rcases hmem with h | h | h | h | h | h | h | h
              · subst h; decide
              · subst h; decide
              · subst h; decide
              · subst h; decide
              · subst h; decide
              · exact (isDigitChar_ne c1 h).2.2.2.2.2.1
              · subst h; decide
              · subst h; decide
            rw [hv1, List.cons_append]
            show (if c1 = ']' then
                some (JsVal.arr [], cs1 ++ (elemsTail vs ++ ']' :: rest))
              else
                match parseVal f (c1 :: (cs1 ++ (elemsTail vs ++ ']' :: rest))) with
                | some (v, s2) => parseArrRest f [v] s2
                | none => none) = some (JsVal.arr (v :: vs), rest)
            rw [if_neg hne1, ← List.cons_append, ← hv1]
            rw [ihf.1 v (elemsTail vs ++ ']' :: rest) hszv hdel]
            show parseArrRest f [v] (elemsTail vs ++ ']' :: rest) =
              some (JsVal.arr (v :: vs), rest)
            rw [ihf.2.2.1 vs [v] rest hsze, List.singleton_append]
        | obj fs =>
          cases fs with
          | nil =>
            rw [show stringify (JsVal.obj []) = ['{', '}'] from rfl]
            simp only [List.cons_append, List.nil_append]
            rw [parseVal_cons]
            rw [if_neg (by decide), if_neg (by decide), if_neg (by decide),
              if_neg (by decide), if_neg (by decide), if_neg (by decide),
              if_neg (by decide), if_pos rfl]
            rfl
          | cons kv kvs =>
            have hobj : stringify (JsVal.obj (kv :: kvs)) ++ rest =
                '{' :: (quoteString kv.1 ++ ':' :: stringify kv.2 ++
                  (fieldsTail kvs ++ '}' :: rest)) := by
              rw [show stringify (JsVal.obj (kv :: kvs)) =
                '{' :: (stringifyFields (kv :: kvs) ++ ['}']) from rfl,
                stringifyFields_cons]
              simp [List.append_assoc]
            rw [hobj, parseVal_cons]
            rw [if_neg (by decide), if_neg (by decide), if_neg (by decide),
              if_neg (by decide), if_neg (by decide), if_neg (by decide),
              if_neg (by decide), if_pos rfl]
            have hszv : jsize kv.2 + 1 ≤ f := by
              simp only [jsize] at hsz
              have := jsizeFields_pos kvs
              omega
            have hszf : jsizeFields kvs ≤ f := by
              simp only [jsize] at hsz
              have := jsize_pos kv.2
              omega
            have hdel : delimOk kv.2 (fieldsTail kvs ++ '}' :: rest) :=
              delimOk_of kv.2 _ (numDelim_fieldsTail kvs rest)
            show (match parseMember f (quoteString kv.1 ++ ':' :: stringify kv.2 ++
                (fieldsTail kvs ++ '}' :: rest)) with
              | some (kv2, s2) => parseObjRest f [kv2] s2
              | none => none) = some (JsVal.obj (kv :: kvs), rest)
            rw [ihf.2.1 kv.1 kv.2 (fieldsTail kvs ++ '}' :: rest) hszv hdel]
            show parseObjRest f [(kv.1, kv.2)] (fieldsTail kvs ++ '}' :: rest) =
              some (JsVal.obj (kv :: kvs), rest)
            rw [ihf.2.2.2 kvs [(kv.1, kv.2)] rest hszf, List.singleton_append]
    · intro k v rest hsz hdelim
      cases fuel with
      | zero => exact absurd hsz (by omega)
      | succ f =>
        have ihf := ih f (by omega)
        rw [List.append_assoc, quoteString_append, List.cons_append]
        rw [parseMember_quote, parseStringBody_escape]
        show (parseVal f (stringify v ++ rest)).map (fun r => ((k, r.1), r.2)) =
          some ((k, v), rest)
        rw [ihf.1 v rest (by omega) hdelim, Option.map_some']
    · intro vs acc rest hsz
      cases fuel with
      | zero => exact absurd hsz (by have := jsizeElems_pos vs; omega)
      | succ f =>
        have ihf := ih f (by omega)
        cases vs with
        | nil =>
          show parseArrRest (f + 1) acc (']' :: rest) =
            some (JsVal.arr (acc ++ []), rest)
          rw [parseArrRest_close, List.append_nil]
        | cons v vs =>
          have het : elemsTail (v :: vs) ++ ']' :: rest =
              ',' :: (stringify v ++ (elemsTail vs ++ ']' :: rest)) := by
            simp [elemsTail, List.append_assoc]
          have hszv : jsize v ≤ f := by
            simp only [jsizeElems] at hsz
            have := jsizeElems_pos vs
            omega
          have hsze : jsizeElems vs ≤ f := by
            simp only [jsizeElems] at hsz
            have := jsize_pos v
            omega
          have hdel : delimOk v (elemsTail vs ++ ']' :: rest) :=
            delimOk_of v _ (numDelim_elemsTail vs rest)
          rw [het, parseArrRest_comma]
          rw [ihf.1 v (elemsTail vs ++ ']' :: rest) hszv hdel]
          show parseArrRest f (acc ++ [v]) (elemsTail vs ++ ']' :: rest) =
            some (JsVal.arr (acc ++ v :: vs), rest)
          rw [ihf.2.2.1 vs (acc ++ [v]) rest hsze]
          rw [List.append_assoc, List.singleton_append]
    · intro kvs acc rest hsz
      cases fuel with
      | zero => exact absurd hsz (by have := jsizeFields_pos kvs; omega)
      | succ f =>
        have ihf := ih f (by omega)
        cases kvs with
        | nil =>
          show parseObjRest (f + 1) acc ('}' :: rest) =
            some (JsVal.obj (acc ++ []), rest)
          rw [parseObjRest_close, List.append_nil]
        | cons kv kvs =>
          have het : fieldsTail (kv :: kvs) ++ '}' :: rest =
              ',' :: (quoteString kv.1 ++ ':' :: stringify kv.2 ++
                (fieldsTail kvs ++ '}' :: rest)) := by
            simp [fieldsTail, List.append_assoc]
          have hszv : jsize kv.2 + 1 ≤ f := by
            simp only [jsizeFields] at hsz
            have := jsizeFields_pos kvs
            omega
          have hszf : jsizeFields kvs ≤ f := by
            simp only [jsizeFields] at hsz
            have := jsize_pos kv.2
            omega
          have hdel : delimOk kv.2 (fieldsTail kvs ++ '}' :: rest) :=
            delimOk_of kv.2 _ (numDelim_fieldsTail kvs rest)
          rw [het, parseObjRest_comma]
          rw [ihf.2.1 kv.1 kv.2 (fieldsTail kvs ++ '}' :: rest) hszv hdel]
          show parseObjRest f (acc ++ [(kv.1, kv.2)]) (fieldsTail kvs ++ '}' :: rest) =
            some (JsVal.obj (acc ++ kv :: kvs), rest)
          rw [ihf.2.2.2 kvs (acc ++ [(kv.1, kv.2)]) rest hszf]
          rw [List.append_assoc, List.singleton_append]

/-- The printed form of a value is nonempty. -/
theorem stringify_ne_nil (v : JsVal) : 1 ≤ (stringify v).length := by
  obtain ⟨c, cs, hv, _⟩ := stringify_head v
  rw [hv]
  simp

mutual

/-- The fuel needed for a value is within twice its printed length. -/
theorem jsize_le_length : ∀ v : JsVal, jsize v ≤ 2 * (stringify v).length
  | .null => by simp [jsize, stringify, nullChars]
  | .bool true => by simp [jsize, stringify, trueChars]
  | .bool false => by simp [jsize, stringify, falseChars]
  | .num n => by
    have := stringify_ne_nil (.num n)
    simp only [jsize]
    omega
  | .str s => by
    have := stringify_ne_nil (.str s)
    simp only [jsize]
    omega
  | .arr [] => by simp [jsize, stringify, stringifyElems]
  | .arr (v :: vs) => by
    have h1 := jsize_le_length v
    have h2 := jsizeElems_le_length vs
    rw [show stringify (JsVal.arr (v :: vs)) =
      '[' :: (stringifyElems (v :: vs) ++ [']']) from rfl, stringifyElems_cons]
    simp only [jsize, List.length_cons, List.length_append, List.length_singleton]
    omega
  | .obj [] => by simp [jsize, stringify, stringifyFields]
  | .obj (kv :: kvs) => by
    have h1 := jsize_le_length kv.2
    have h2 := jsizeFields_le_length kvs
    rw [show stringify (JsVal.obj (kv :: kvs)) =
      '{' :: (stringifyFields (kv :: kvs) ++ ['}']) from rfl, stringifyFields_cons]
    simp only [jsize, List.length_cons, List.length_append, List.length_singleton]
    omega
termination_by structural v => v

/-- The fuel needed for an element tail is within twice its length plus
two. -/
theorem jsizeElems_le_length : ∀ vs : List JsVal,
    jsizeElems vs ≤ 2 * (elemsTail vs).length + 2
  | [] => by simp [jsizeElems, elemsTail]
  | v :: vs => by
    have h1 := jsize_le_length v
    have h2 := jsizeElems_le_length vs
    rw [show elemsTail (v :: vs) = ',' :: (stringify v ++ elemsTail vs) from by
      simp [elemsTail]]
    simp only [jsizeElems, List.length_cons, List.length_append]
    omega
termination_by structural l => l

/-- The fuel needed for a member tail is within twice its length plus
two. -/
theorem jsizeFields_le_length : ∀ kvs : List (List Char × JsVal),
    jsizeFields kvs ≤ 2 * (fieldsTail kvs).length + 2
  | [] => by simp [jsizeFields, fieldsTail]
  | kv :: kvs => by
    have h1 := jsize_le_length kv.2
    have h2 := jsizeFields_le_length kvs
    rw [show fieldsTail (kv :: kvs) =
      ',' :: (quoteString kv.1 ++ ':' :: stringify kv.2 ++ fieldsTail kvs) from by
      simp [fieldsTail, List.append_assoc]]
    simp only [jsizeFields, List.length_cons, List.length_append]
    omega
termination_by structural l => l

end

/-- `JSON.parse` inverts `JSON.stringify` on every modelled value. -/
theorem parse_stringify (v : JsVal) : parse (stringify v) = some v := by
  have h := (parse_roundtrip_aux (2 * (stringify v).length + 2)).1 v []
    (by have := jsize_le_length v; omega) (delimOk_of v [] rfl)
  rw [List.append_nil] at h
  unfold parse
  rw [h]

/-- Full pipeline: `decode` inverts `encode` on every modelled value. -/
theorem decode_encode (v : JsVal) : decode (encode v) = some v := by
  unfold decode encode
  rw [b64_roundtrip, Option.some_bind, utf8_roundtrip, Option.some_bind,
    parse_stringify]

/-- An encoded session value is never the empty cookie text. -/
theorem encode_isEmpty (v : JsVal) : (encode v).isEmpty = false := by
  unfold encode
  obtain ⟨c, cs, hv, _⟩ := stringify_head v
  rw [hv]
  rw [show utf8Encode (c :: cs) = utf8EncodeChar c ++ utf8Encode cs from rfl]
  cases hec : utf8EncodeChar c with
  | nil => exact absurd hec (utf8EncodeChar_ne_nil c)
  | cons b bs =>
    rw [List.cons_append]
    cases h2 : bs ++ utf8Encode cs with
    | nil => rfl
    | cons b2 t2 =>
      cases t2 with
      | nil => rfl
      | cons b3 t3 => simp [b64encode]

/-- Claim C7: the wire format round-trips: `decode (encode v)` recovers
every modelled JSON value exactly, so a session cookie produced from a
session's own enumerable fields is decoded byte-for-byte into the same
fields on the next request; in particular the `session.message = "hi"`
scenario and a value containing a semicolon both round-trip. -/
theorem claim_c7 (v : JsVal) (isNewFlag : Bool) (fields : List (List Char × JsVal)) :
    decode (encode v) = some v ∧
    loadSession (some (encodeSession ⟨isNewFlag, fields⟩)) = ⟨false, fields⟩ ∧
    onPreEnd (SessState.active
        ⟨true, [(['m', 'e', 's', 's', 'a', 'g', 'e'], JsVal.str ['h', 'i'])]⟩) =
      some (encodeSession
        ⟨true, [(['m', 'e', 's', 's', 'a', 'g', 'e'], JsVal.str ['h', 'i'])]⟩) ∧
    lookupProp (loadSession (some (encodeSession
        ⟨true, [(['m', 'e', 's', 's', 'a', 'g', 'e'], JsVal.str ['h', 'i'])]⟩))).fields
      ['m', 'e', 's', 's', 'a', 'g', 'e'] = some (JsVal.str ['h', 'i']) ∧
    decode (encode (JsVal.obj [(['s', 't', 'r', 'i', 'n', 'g'], JsVal.str [';'])])) =
      some (JsVal.obj [(['s', 't', 'r', 'i', 'n', 'g'], JsVal.str [';'])]) := by
  have hload : ∀ (b : Bool) (fs : List (List Char × JsVal)),
      loadSession (some (encodeSession ⟨b, fs⟩)) = ⟨false, fs⟩ := by
    intro b fs
    show loadSession (some (encode (JsVal.obj fs))) = ⟨false, fs⟩
    simp only [loadSession]
    rw [if_neg (by simp [encode_isEmpty]), decode_encode (JsVal.obj fs)]
    rfl
  refine ⟨decode_encode v, hload isNewFlag fields, rfl, ?_, decode_encode _⟩
  rw [hload true [(['m', 'e', 's', 's', 'a', 'g', 'e'], JsVal.str ['h', 'i'])]]
  rfl
